import Mathlib

/-!
Shallow embedding of the 2D spectral filtering module `src/filter2d.py` of the
eFlux repository, and verification of the frozen claims about it.

Modelling conventions:
* Grid vectors (`r`, `th`, `z`) and scalar parameters (`rPos`, `lambdaTh`,
  `lambdaZ`) are rationals; field values are real numbers.  A 2D scalar plane
  of shape `(len th, len z)` is a function `Fin th.length → Fin z.length → ℝ`.
* `np.fft.fft2` / `np.fft.ifft2` are embedded as the exact 2D discrete Fourier
  transform over `ℂ` (sums of `Complex.exp` terms).
* Operations of the Python code that raise an exception (out-of-bounds grid
  indexing `th[1]` for a grid of length < 2, Python float division by zero in
  `np.pi/lambda`, the explicit `sys.exit` for `rect != 1`) are modelled by
  `Except String`; everything after a raise is not evaluated, matching Python.
* The `joblib.Parallel(delayed(...))` dispatch is embedded as an
  order-preserving effectful map over the radial index range (it returns the
  per-plane results in generator order and propagates any worker exception).
-/

open scoped BigOperators

noncomputable section

/-- Embedding of `numpy.fft.fftfreq n d`: entry `i` is `i/(n*d)` for
`i ≤ (n-1)/2` (integer division) and `(i-n)/(n*d)` for larger `i`
(`src/filter2d.py` lines 41-42 use it for both homogeneous directions). -/
def fftfreq (n : ℕ) (d : ℚ) (i : Fin n) : ℚ :=
  (if (i : ℕ) ≤ (n - 1) / 2 then ((i : ℕ) : ℤ) else ((i : ℕ) : ℤ) - (n : ℤ)) / (n * d)

/-- Embedding of `numpy.heaviside x h0`: `0` for negative `x`, `h0` at `0`,
`1` for positive `x` (used in `src/filter2d.py` lines 54-55). -/
def heaviside (x h0 : ℝ) : ℝ :=
  if x < 0 then 0 else if x = 0 then h0 else 1

/-- Embedding of `numpy.sinc x`: the normalised sine cardinal
`sin (π x) / (π x)` with value `1` at `x = 0` (`src/filter2d.py` line 207). -/
def sinc (x : ℝ) : ℝ :=
  if x = 0 then 1 else Real.sin (Real.pi * x) / (Real.pi * x)

/-- Forward 2D discrete Fourier transform (embedding of `numpy.fft.fft2`):
`(fft2 u) p q = ∑ a b, u a b · exp (-2πi (p a / m + q b / n))`. -/
def fft2 {m n : ℕ} (u : Fin m → Fin n → ℂ) : Fin m → Fin n → ℂ := fun p q =>
  ∑ a : Fin m, ∑ b : Fin n,
    u a b * Complex.exp (-(2 * (Real.pi : ℂ) * Complex.I) *
      (((p : ℕ) : ℂ) * ((a : ℕ) : ℂ) / (m : ℂ) + ((q : ℕ) : ℂ) * ((b : ℕ) : ℂ) / (n : ℂ)))

/-- Inverse 2D discrete Fourier transform (embedding of `numpy.fft.ifft2`):
`(ifft2 v) a b = (1/(m n)) ∑ p q, v p q · exp (2πi (p a / m + q b / n))`. -/
def ifft2 {m n : ℕ} (v : Fin m → Fin n → ℂ) : Fin m → Fin n → ℂ := fun a b =>
  (1 / ((m : ℂ) * (n : ℂ))) * ∑ p : Fin m, ∑ q : Fin n,
    v p q * Complex.exp ((2 * (Real.pi : ℂ) * Complex.I) *
      (((p : ℕ) : ℂ) * ((a : ℕ) : ℂ) / (m : ℂ) + ((q : ℕ) : ℂ) * ((b : ℕ) : ℂ) / (n : ℂ)))

/-- Embedding of `numpy.outer` for two 1D kernels: the separable 2D kernel
`g2d[p, q] = gTh[p] * gZ[q]` (`src/filter2d.py` lines 56, 132, 209). -/
def outer {m n : ℕ} (gTh : Fin m → ℝ) (gZ : Fin n → ℝ) : Fin m → Fin n → ℝ :=
  fun p q => gTh p * gZ q

/-- The Plane Filter: apply a real 2D frequency-domain kernel `g` to a real 2D
plane `u` by forward transform, point-wise multiply, inverse transform, real
part (`src/filter2d.py` lines 62-64, 139-141, 214-216). -/
def planeFilter {m n : ℕ} (g : Fin m → Fin n → ℝ) (u : Fin m → Fin n → ℝ) :
    Fin m → Fin n → ℝ := fun a b =>
  (ifft2 (fun p q => fft2 (fun i j => ((u i j : ℝ) : ℂ)) p q * ((g p q : ℝ) : ℂ)) a b).re

/-- Sharp spectral cutoff 1D kernel (`src/filter2d.py` lines 49, 54): the value
`heaviside (π/lambda - |2π k|) 1` at cycle wavenumber `k = fftfreq n d`. -/
def fourierG (lam : ℚ) (n : ℕ) (d : ℚ) : Fin n → ℝ := fun i =>
  heaviside ((Real.pi / (lam : ℝ)) - |2 * Real.pi * ((fftfreq n d i : ℚ) : ℝ)|) 1

/-- Gaussian 1D kernel (`src/filter2d.py` line 130):
`exp ((2π k · lambda)² / (-24))` at cycle wavenumber `k = fftfreq n d`. -/
def gaussG (lam : ℚ) (n : ℕ) (d : ℚ) : Fin n → ℝ := fun i =>
  Real.exp ((2 * Real.pi * ((fftfreq n d i : ℚ) : ℝ) * (lam : ℝ)) ^ (2 : ℕ) / (-24))

/-- Box (top-hat) 1D kernel (`src/filter2d.py` line 207): the normalised sinc
evaluated at `k · lambda` with `k = fftfreq n d` the cycle wavenumber. -/
def boxG (lam : ℚ) (n : ℕ) (d : ℚ) : Fin n → ℝ := fun i =>
  sinc (((fftfreq n d i : ℚ) : ℝ) * (lam : ℝ))

/-- Error raised by `th[1]` / `z[1]` on a grid vector of length < 2. -/
def indexErrorMsg : String := "IndexError: index 1 is out of bounds"

/-- Error raised by the Python float division `np.pi/lambda` at `lambda = 0`
(`src/filter2d.py` lines 49-50; the callers build the widths as plain Python
floats, see `plotPiCorr2d1dQ3Compare.py` lines 70-71). -/
def zeroDivisionMsg : String := "ZeroDivisionError: float division by zero"

/-- Message of the `sys.exit` call for `rect != 1` (`src/filter2d.py` line 59). -/
def circularKernelMsg : String :=
  "ERROR: Set rect=1. Circular/elliptical kernel not implemented yet..."

/-- Embedding of `fourier2dThZ` (`src/filter2d.py` lines 21-64): 2D sharp
spectral cutoff filter on one th-z plane.  The grid vectors come first so that
the plane type can mention their lengths; the remaining parameters keep the
source order `(u, rPos, lambdaTh, lambdaZ, rect)`.  Failure points, in source
order: grid indexing (lines 37-38), `np.pi/lambda` (lines 49-50), and the
`sys.exit` for a non-rectangular kernel request (line 59). -/
def fourier2dThZ (th z : List ℚ) (u : Fin th.length → Fin z.length → ℝ)
    (rPos lambdaTh lambdaZ : ℚ) (rect : ℤ) :
    Except String (Fin th.length → Fin z.length → ℝ) :=
  if 2 ≤ th.length then
    if 2 ≤ z.length then
      if lambdaTh = 0 then .error zeroDivisionMsg
      else if lambdaZ = 0 then .error zeroDivisionMsg
      else if rect = 1 then
        .ok (planeFilter
          (outer (fourierG lambdaTh th.length ((th.getD 1 0 - th.getD 0 0) * rPos))
                 (fourierG lambdaZ z.length (z.getD 1 0 - z.getD 0 0))) u)
      else .error circularKernelMsg
    else .error indexErrorMsg
  else .error indexErrorMsg

/-- Embedding of `gauss2dThZ` (`src/filter2d.py` lines 103-141): 2D Gaussian
filter on one th-z plane.  The only failure point is grid indexing
(lines 118-119); the filter widths are never checked. -/
def gauss2dThZ (th z : List ℚ) (u : Fin th.length → Fin z.length → ℝ)
    (rPos lambdaTh lambdaZ : ℚ) :
    Except String (Fin th.length → Fin z.length → ℝ) :=
  if 2 ≤ th.length then
    if 2 ≤ z.length then
      .ok (planeFilter
        (outer (gaussG lambdaTh th.length ((th.getD 1 0 - th.getD 0 0) * rPos))
               (gaussG lambdaZ z.length (z.getD 1 0 - z.getD 0 0))) u)
    else .error indexErrorMsg
  else .error indexErrorMsg

/-- Embedding of `box2dThZ` (`src/filter2d.py` lines 179-216): 2D box (top-hat)
filter on one th-z plane.  The only failure point is grid indexing
(lines 195-196); the filter widths are never checked. -/
def box2dThZ (th z : List ℚ) (u : Fin th.length → Fin z.length → ℝ)
    (rPos lambdaTh lambdaZ : ℚ) :
    Except String (Fin th.length → Fin z.length → ℝ) :=
  if 2 ≤ th.length then
    if 2 ≤ z.length then
      .ok (planeFilter
        (outer (boxG lambdaTh th.length ((th.getD 1 0 - th.getD 0 0) * rPos))
               (boxG lambdaZ z.length (z.getD 1 0 - z.getD 0 0))) u)
    else .error indexErrorMsg
  else .error indexErrorMsg

/-- Order-preserving effectful map embedding the `joblib.Parallel(delayed(f)(…)
for i in range(n))` dispatch: results are assembled in generator order and any
worker exception aborts the whole call with no partial output. -/
def parallelMap {β : Type} (f : ℕ → Except String β) : List ℕ → Except String (List β)
  | [] => .ok []
  | i :: is => do
      let x ← f i
      let xs ← parallelMap f is
      pure (x :: xs)

/-- The hard-coded radial reference location of the fixed-reference
("Härtel hack") policy (`src/filter2d.py` lines 92, 168, 243). -/
def rRef : ℚ := 0.986

/-- Embedding of `fourier2d` (`src/filter2d.py` lines 68-99): the active code
path (line 93) filters every radial plane with the constant reference radius
`rRef = 0.986`.  The 3D field is a function from the radial index (the code
reads plane `u[i]` for `i < len r`). -/
def fourier2d (r th z : List ℚ) (u : ℕ → Fin th.length → Fin z.length → ℝ)
    (lambdaTh lambdaZ : ℚ) (rect : ℤ) :
    Except String (List (Fin th.length → Fin z.length → ℝ)) :=
  parallelMap (fun i => fourier2dThZ th z (u i) rRef lambdaTh lambdaZ rect)
    (List.range r.length)

/-- Embedding of `gauss2d` (`src/filter2d.py` lines 145-175): the active code
path (line 169) filters every radial plane with `rRef = 0.986`. -/
def gauss2d (r th z : List ℚ) (u : ℕ → Fin th.length → Fin z.length → ℝ)
    (lambdaTh lambdaZ : ℚ) :
    Except String (List (Fin th.length → Fin z.length → ℝ)) :=
  parallelMap (fun i => gauss2dThZ th z (u i) rRef lambdaTh lambdaZ)
    (List.range r.length)

/-- Embedding of `box2d` (`src/filter2d.py` lines 220-250): the active code
path (line 244) filters every radial plane with `rRef = 0.986`. -/
def box2d (r th z : List ℚ) (u : ℕ → Fin th.length → Fin z.length → ℝ)
    (lambdaTh lambdaZ : ℚ) :
    Except String (List (Fin th.length → Fin z.length → ℝ)) :=
  parallelMap (fun i => box2dThZ th z (u i) rRef lambdaTh lambdaZ)
    (List.range r.length)

/-- Dispatcher following the spec's words for the true per-radius policy
(§4.3: `rPos = r[i]` for plane `i`); it coincides with the commented-out
line 89 of `src/filter2d.py`.  Used to compare the spec's claimed policy with
the code's actual fixed-reference behaviour. -/
def fourier2dPerRadius (r th z : List ℚ) (u : ℕ → Fin th.length → Fin z.length → ℝ)
    (lambdaTh lambdaZ : ℚ) (rect : ℤ) :
    Except String (List (Fin th.length → Fin z.length → ℝ)) :=
  parallelMap (fun i => fourier2dThZ th z (u i) (r.getD i 0) lambdaTh lambdaZ rect)
    (List.range r.length)

/-- One step of the serial loop: append the next filtered plane to the
accumulated output, propagating any raised error. -/
def serialStep {β : Type} (f : ℕ → Except String β)
    (acc : Except String (List β)) (i : ℕ) : Except String (List β) := do
  let xs ← acc
  let x ← f i
  pure (xs ++ [x])

/-- Serial execution of the same per-plane jobs (the plain `for i in range`
loop of `src/filter2d.py` lines 96-97, run over the same plane function as the
parallel dispatch): planes are computed one after the other and appended to
the output in index order. -/
def serialRun {β : Type} (f : ℕ → Except String β) (n : ℕ) : Except String (List β) :=
  (List.range n).foldl (serialStep f) (.ok [])

/-- Sum of `m`-th roots of unity with integer exponent parameter `t`:
`∑ a < m, exp (2πi t a / m)`. -/
def rootSum (m : ℕ) (t : ℤ) : ℂ :=
  ∑ a : Fin m, Complex.exp (2 * (Real.pi : ℂ) * Complex.I * (t : ℂ) * ((a : ℕ) : ℂ) / (m : ℂ))

theorem two_pi_I_ne_zero : (2 * (Real.pi : ℂ) * Complex.I) ≠ 0 :=
  mul_ne_zero (mul_ne_zero two_ne_zero (Complex.ofReal_ne_zero.mpr Real.pi_ne_zero))
    Complex.I_ne_zero

theorem rootSum_of_dvd (m : ℕ) (t : ℤ) (h : (m : ℤ) ∣ t) : rootSum m t = m := by
  rcases Nat.eq_zero_or_pos m with hm | hm
  · subst hm; simp [rootSum]
  obtain ⟨s, hs⟩ := h
  have hm0 : (m : ℂ) ≠ 0 := Nat.cast_ne_zero.mpr hm.ne'
  have hterm : ∀ a : Fin m,
      Complex.exp (2 * (Real.pi : ℂ) * Complex.I * (t : ℂ) * ((a : ℕ) : ℂ) / (m : ℂ)) = 1 := by
    intro a
    have harg : 2 * (Real.pi : ℂ) * Complex.I * (t : ℂ) * ((a : ℕ) : ℂ) / (m : ℂ)
        = ((s * (a : ℕ) : ℤ) : ℂ) * (2 * (Real.pi : ℂ) * Complex.I) := by
      subst hs; push_cast; field_simp; ring
    rw [harg, Complex.exp_int_mul_two_pi_mul_I]
  simp [rootSum, hterm, Finset.card_univ]

theorem rootSum_of_not_dvd (m : ℕ) (t : ℤ) (h : ¬ (m : ℤ) ∣ t) : rootSum m t = 0 := by
  rcases Nat.eq_zero_or_pos m with hm | hm
  · subst hm; simp [rootSum]
  have hm0 : (m : ℂ) ≠ 0 := Nat.cast_ne_zero.mpr hm.ne'
  set ζ : ℂ := Complex.exp (2 * (Real.pi : ℂ) * Complex.I * (t : ℂ) / (m : ℂ)) with hζdef
  have hterm : ∀ a : Fin m,
      Complex.exp (2 * (Real.pi : ℂ) * Complex.I * (t : ℂ) * ((a : ℕ) : ℂ) / (m : ℂ))
        = ζ ^ (a : ℕ) := by
    intro a
    rw [hζdef, ← Complex.exp_nat_mul]
    congr 1
    field_simp
    ring
  have hζm : ζ ^ m = 1 := by
    rw [hζdef, ← Complex.exp_nat_mul]
    have harg : (m : ℂ) * (2 * (Real.pi : ℂ) * Complex.I * (t : ℂ) / (m : ℂ))
        = (t : ℂ) * (2 * (Real.pi : ℂ) * Complex.I) := by
      field_simp; ring
    rw [harg, Complex.exp_int_mul_two_pi_mul_I]
  have hζ1 : ζ ≠ 1 := by
    intro hone
    obtain ⟨k, hk⟩ := Complex.exp_eq_one_iff.mp (hζdef ▸ hone)
    apply h
    refine ⟨k, ?_⟩
    have h2 : (2 * (Real.pi : ℂ) * Complex.I) * ((t : ℂ) / (m : ℂ))
        = (2 * (Real.pi : ℂ) * Complex.I) * (k : ℂ) := by
      rw [← mul_div_assoc, hk]; ring
    have h3 : (t : ℂ) / (m : ℂ) = (k : ℂ) := mul_left_cancel₀ two_pi_I_ne_zero h2
    rw [div_eq_iff hm0] at h3
    have h4 : (t : ℂ) = ((m * k : ℤ) : ℂ) := by push_cast; rw [h3]; ring
    exact_mod_cast h4
  calc rootSum m t = ∑ a : Fin m, ζ ^ (a : ℕ) := Finset.sum_congr rfl fun a _ => hterm a
    _ = ∑ i ∈ Finset.range m, ζ ^ i := Fin.sum_univ_eq_sum_range _ _
    _ = (ζ ^ m - 1) / (ζ - 1) := geom_sum_eq hζ1 m
    _ = 0 := by rw [hζm]; simp

/-- One line of the forward transform of a constant: the geometric sum
vanishes except at the zero wavenumber. -/
theorem fft2_line_sum (m : ℕ) (p : Fin m) :
    (∑ a : Fin m, Complex.exp (-(2 * (Real.pi : ℂ) * Complex.I) *
        (((p : ℕ) : ℂ) * ((a : ℕ) : ℂ) / (m : ℂ))))
      = if (p : ℕ) = 0 then (m : ℂ) else 0 := by
  have hs : (∑ a : Fin m, Complex.exp (-(2 * (Real.pi : ℂ) * Complex.I) *
        (((p : ℕ) : ℂ) * ((a : ℕ) : ℂ) / (m : ℂ)))) = rootSum m (-((p : ℕ) : ℤ)) := by
    unfold rootSum
    refine Finset.sum_congr rfl fun a _ => ?_
    congr 1
    push_cast
    ring
  rw [hs]
  by_cases hp : (p : ℕ) = 0
  · rw [if_pos hp, hp]
    exact_mod_cast rootSum_of_dvd m 0 (dvd_zero _)
  · rw [if_neg hp]
    refine rootSum_of_not_dvd m _ fun hdvd => hp ?_
    rw [dvd_neg, Int.natCast_dvd_natCast] at hdvd
    exact Nat.eq_zero_of_dvd_of_lt hdvd p.isLt

/-- Forward transform of a spatially constant plane: a point mass of weight
`c·m·n` at the zero wavenumber. -/
theorem fft2_const {m n : ℕ} (c : ℂ) (p : Fin m) (q : Fin n) :
    fft2 (fun _ _ => c) p q
      = if (p : ℕ) = 0 ∧ (q : ℕ) = 0 then c * m * n else 0 := by
  unfold fft2
  have hsplit : ∀ (a : Fin m) (b : Fin n),
      c * Complex.exp (-(2 * (Real.pi : ℂ) * Complex.I) *
          (((p : ℕ) : ℂ) * ((a : ℕ) : ℂ) / (m : ℂ) + ((q : ℕ) : ℂ) * ((b : ℕ) : ℂ) / (n : ℂ)))
        = c * (Complex.exp (-(2 * (Real.pi : ℂ) * Complex.I) *
              (((p : ℕ) : ℂ) * ((a : ℕ) : ℂ) / (m : ℂ)))
            * Complex.exp (-(2 * (Real.pi : ℂ) * Complex.I) *
              (((q : ℕ) : ℂ) * ((b : ℕ) : ℂ) / (n : ℂ)))) := by
    intro a b
    rw [← Complex.exp_add]
    ring_nf
  calc (∑ a : Fin m, ∑ b : Fin n, c * Complex.exp (-(2 * (Real.pi : ℂ) * Complex.I) *
          (((p : ℕ) : ℂ) * ((a : ℕ) : ℂ) / (m : ℂ) + ((q : ℕ) : ℂ) * ((b : ℕ) : ℂ) / (n : ℂ))))
      = ∑ a : Fin m, c * Complex.exp (-(2 * (Real.pi : ℂ) * Complex.I) *
            (((p : ℕ) : ℂ) * ((a : ℕ) : ℂ) / (m : ℂ)))
          * (∑ b : Fin n, Complex.exp (-(2 * (Real.pi : ℂ) * Complex.I) *
            (((q : ℕ) : ℂ) * ((b : ℕ) : ℂ) / (n : ℂ)))) := by
        refine Finset.sum_congr rfl fun a _ => ?_
        rw [Finset.mul_sum]
        refine Finset.sum_congr rfl fun b _ => ?_
        rw [hsplit a b]
        ring
    _ = c * (∑ a : Fin m, Complex.exp (-(2 * (Real.pi : ℂ) * Complex.I) *
            (((p : ℕ) : ℂ) * ((a : ℕ) : ℂ) / (m : ℂ))))
          * (∑ b : Fin n, Complex.exp (-(2 * (Real.pi : ℂ) * Complex.I) *
            (((q : ℕ) : ℂ) * ((b : ℕ) : ℂ) / (n : ℂ)))) := by
        rw [← Finset.sum_mul, ← Finset.mul_sum]
    _ = if (p : ℕ) = 0 ∧ (q : ℕ) = 0 then c * m * n else 0 := by
        rw [fft2_line_sum m p, fft2_line_sum n q]
        by_cases hp : (p : ℕ) = 0 <;> by_cases hq : (q : ℕ) = 0 <;>
          simp [hp, hq]

/-- Collapse a double sum with a point mass at the zero indices. -/
theorem pointmass_sum {m n : ℕ} (hm : 0 < m) (hn : 0 < n) (K : ℂ) :
    (∑ p : Fin m, ∑ q : Fin n, if (p : ℕ) = 0 ∧ (q : ℕ) = 0 then K else 0) = K := by
  rw [Finset.sum_eq_single (⟨0, hm⟩ : Fin m)]
  · rw [Finset.sum_eq_single (⟨0, hn⟩ : Fin n)]
    · simp
    · intro q _ hq
      have hcond : ¬(((⟨0, hm⟩ : Fin m) : ℕ) = 0 ∧ (q : ℕ) = 0) := by
        rintro ⟨-, h0⟩
        exact hq (Fin.ext (by simpa using h0))
      rw [if_neg hcond]
    · intro habs
      exact absurd (Finset.mem_univ _) habs
  · intro p _ hp
    have hcond : ∀ q : Fin n, ¬((p : ℕ) = 0 ∧ (q : ℕ) = 0) := by
      rintro q ⟨h0, -⟩
      exact hp (Fin.ext (by simpa using h0))
    simp [hcond]
  · intro habs
    exact absurd (Finset.mem_univ _) habs

/-- Core of DC preservation: the full transform–multiply–inverse pipeline
applied to a spatially constant plane returns the plane unchanged for every
kernel whose zero-wavenumber value is `1`. -/
theorem planeFilter_const {m n : ℕ} (hm : 0 < m) (hn : 0 < n)
    (g : Fin m → Fin n → ℝ) (hg : g ⟨0, hm⟩ ⟨0, hn⟩ = 1) (c : ℝ) :
    planeFilter g (fun _ _ => c) = fun _ _ => c := by
  funext a b
  unfold planeFilter ifft2
  have hv : ∀ (p : Fin m) (q : Fin n),
      fft2 (fun _ _ => ((c : ℝ) : ℂ)) p q * ((g p q : ℝ) : ℂ)
        * Complex.exp ((2 * (Real.pi : ℂ) * Complex.I) *
          (((p : ℕ) : ℂ) * ((a : ℕ) : ℂ) / (m : ℂ) + ((q : ℕ) : ℂ) * ((b : ℕ) : ℂ) / (n : ℂ)))
      = if (p : ℕ) = 0 ∧ (q : ℕ) = 0 then (c : ℂ) * m * n else 0 := by
    intro p q
    rw [fft2_const]
    by_cases hp : (p : ℕ) = 0
    · by_cases hq : (q : ℕ) = 0
      · have hp2 : p = ⟨0, hm⟩ := Fin.ext (by simpa using hp)
        have hq2 : q = ⟨0, hn⟩ := Fin.ext (by simpa using hq)
        subst hp2; subst hq2
        rw [if_pos ⟨rfl, rfl⟩, hg]
        simp only [show ((⟨0, hm⟩ : Fin m) : ℕ) = 0 from rfl,
          show ((⟨0, hn⟩ : Fin n) : ℕ) = 0 from rfl, Nat.cast_zero, zero_mul, zero_div,
          add_zero, mul_zero, Complex.exp_zero, Complex.ofReal_one, mul_one]
      · rw [if_neg (by tauto)]
        ring
    · rw [if_neg (by tauto)]
      ring
  rw [Finset.sum_congr rfl fun p _ => Finset.sum_congr rfl fun q _ => hv p q,
    pointmass_sum hm hn]
  have hm0 : (m : ℂ) ≠ 0 := Nat.cast_ne_zero.mpr hm.ne'
  have hn0 : (n : ℂ) ≠ 0 := Nat.cast_ne_zero.mpr hn.ne'
  have hval : 1 / ((m : ℂ) * (n : ℂ)) * ((c : ℂ) * m * n) = ((c : ℝ) : ℂ) := by
    field_simp
    ring
  rw [hval, Complex.ofReal_re]

theorem heaviside_pos {x h0 : ℝ} (h : 0 < x) : heaviside x h0 = 1 := by
  unfold heaviside
  rw [if_neg (not_lt.mpr h.le), if_neg h.ne']

theorem heaviside_neg {x h0 : ℝ} (h : x < 0) : heaviside x h0 = 0 := by
  unfold heaviside
  rw [if_pos h]

theorem fftfreq_zero (n : ℕ) (d : ℚ) (h : 0 < n) : fftfreq n d ⟨0, h⟩ = 0 := by
  unfold fftfreq
  norm_num

theorem fourierG_zero (lam : ℚ) (n : ℕ) (d : ℚ) (h : 0 < n) (hlam : 0 < lam) :
    fourierG lam n d ⟨0, h⟩ = 1 := by
  unfold fourierG
  rw [fftfreq_zero n d h]
  have hl : (0 : ℝ) < (lam : ℝ) := by exact_mod_cast hlam
  have hx : (0 : ℝ) < Real.pi / (lam : ℝ) := div_pos Real.pi_pos hl
  have harg : Real.pi / (lam : ℝ) - |2 * Real.pi * (((0 : ℚ) : ℝ))| = Real.pi / (lam : ℝ) := by
    simp
  rw [harg]
  exact heaviside_pos hx

theorem gaussG_zero (lam : ℚ) (n : ℕ) (d : ℚ) (h : 0 < n) :
    gaussG lam n d ⟨0, h⟩ = 1 := by
  unfold gaussG
  rw [fftfreq_zero n d h]
  norm_num

theorem boxG_zero (lam : ℚ) (n : ℕ) (d : ℚ) (h : 0 < n) :
    boxG lam n d ⟨0, h⟩ = 1 := by
  unfold boxG
  rw [fftfreq_zero n d h]
  norm_num [sinc]

/-- Success unfolding of the sharp-cutoff plane filter: when the grid vectors
have at least two points, both widths avoid the `np.pi/lambda` zero division
and the rectangular kernel is requested, the call returns the filtered plane. -/
theorem fourier2dThZ_ok (th z : List ℚ) (u : Fin th.length → Fin z.length → ℝ)
    (rPos lambdaTh lambdaZ : ℚ)
    (hth : 2 ≤ th.length) (hz : 2 ≤ z.length) (hlt : lambdaTh ≠ 0) (hlz : lambdaZ ≠ 0) :
    fourier2dThZ th z u rPos lambdaTh lambdaZ 1
      = .ok (planeFilter
          (outer (fourierG lambdaTh th.length ((th.getD 1 0 - th.getD 0 0) * rPos))
                 (fourierG lambdaZ z.length (z.getD 1 0 - z.getD 0 0))) u) := by
  unfold fourier2dThZ
  rw [if_pos hth, if_pos hz, if_neg hlt, if_neg hlz, if_pos rfl]

/-- Success unfolding of the Gaussian plane filter: only the grid lengths are
checked; the widths are arbitrary. -/
theorem gauss2dThZ_ok (th z : List ℚ) (u : Fin th.length → Fin z.length → ℝ)
    (rPos lambdaTh lambdaZ : ℚ) (hth : 2 ≤ th.length) (hz : 2 ≤ z.length) :
    gauss2dThZ th z u rPos lambdaTh lambdaZ
      = .ok (planeFilter
          (outer (gaussG lambdaTh th.length ((th.getD 1 0 - th.getD 0 0) * rPos))
                 (gaussG lambdaZ z.length (z.getD 1 0 - z.getD 0 0))) u) := by
  unfold gauss2dThZ
  rw [if_pos hth, if_pos hz]

/-- Success unfolding of the box plane filter: only the grid lengths are
checked; the widths are arbitrary. -/
theorem box2dThZ_ok (th z : List ℚ) (u : Fin th.length → Fin z.length → ℝ)
    (rPos lambdaTh lambdaZ : ℚ) (hth : 2 ≤ th.length) (hz : 2 ≤ z.length) :
    box2dThZ th z u rPos lambdaTh lambdaZ
      = .ok (planeFilter
          (outer (boxG lambdaTh th.length ((th.getD 1 0 - th.getD 0 0) * rPos))
                 (boxG lambdaZ z.length (z.getD 1 0 - z.getD 0 0))) u) := by
  unfold box2dThZ
  rw [if_pos hth, if_pos hz]

theorem parallelMap_ok {β : Type} (f : ℕ → Except String β) (g : ℕ → β) (l : List ℕ)
    (h : ∀ i ∈ l, f i = .ok (g i)) : parallelMap f l = .ok (l.map g) := by
  induction l with
  | nil => rfl
  | cons i is ih =>
    have hfi : f i = .ok (g i) := h i (List.mem_cons_self i is)
    have his : parallelMap f is = .ok (is.map g) :=
      ih fun j hj => h j (List.mem_cons_of_mem i hj)
    simp only [parallelMap, hfi, his, List.map_cons]
    rfl

theorem parallelMap_cons_error {β : Type} (f : ℕ → Except String β) (e : String)
    (i : ℕ) (is : List ℕ) (h : f i = .error e) :
    parallelMap f (i :: is) = .error e := by
  simp only [parallelMap, h]
  rfl

theorem foldl_serialStep_error {β : Type} (f : ℕ → Except String β) (e : String)
    (l : List ℕ) : l.foldl (serialStep f) (.error e) = .error e := by
  induction l with
  | nil => rfl
  | cons i is ih =>
    rw [List.foldl_cons]
    exact ih

theorem foldl_serialStep_ok {β : Type} (f : ℕ → Except String β) (l : List ℕ) :
    ∀ xs : List β,
      l.foldl (serialStep f) (.ok xs) = (parallelMap f l).map (fun ys => xs ++ ys) := by
  induction l with
  | nil =>
    intro xs
    simp [parallelMap, Except.map]
  | cons i is ih =>
    intro xs
    rw [List.foldl_cons]
    cases hfi : f i with
    | error e =>
      have hstep : serialStep f (.ok xs) i = .error e := by
        simp only [serialStep, hfi]
        rfl
      rw [hstep, foldl_serialStep_error, parallelMap_cons_error f e i is hfi]
      rfl
    | ok x =>
      have hstep : serialStep f (.ok xs) i = .ok (xs ++ [x]) := by
        simp only [serialStep, hfi]
        rfl
      rw [hstep, ih (xs ++ [x])]
      cases hmis : parallelMap f is with
      | error e =>
        simp only [parallelMap, hfi, hmis]
        rfl
      | ok ys =>
        simp only [parallelMap, hfi, hmis, Except.map]
        simp only [List.append_assoc, List.singleton_append]
        rfl

/-- Executing the per-plane jobs one after the other in index order gives
exactly the result of the order-preserving parallel dispatch. -/
theorem serialRun_eq_parallelMap {β : Type} (f : ℕ → Except String β) (n : ℕ) :
    serialRun f n = parallelMap f (List.range n) := by
  unfold serialRun
  rw [foldl_serialStep_ok]
  cases parallelMap f (List.range n) <;> simp [Except.map]

/-- C5: in the sharp spectral cutoff kernel builder, each 1D kernel is a step
function of the angular wavenumber `κ = 2π·fftfreq n d`: its value is `1` where
`|κ| ≤ π/λ` (boundary inclusive, since `np.heaviside` is called with second
argument `1`) and `0` otherwise, and the 2D kernel is the outer product of the
azimuthal and axial 1D step kernels. -/
theorem C5_sharp_kernel_step (lam lamZ : ℚ) (m n : ℕ) (d dZ : ℚ) (i : Fin m)
    (p : Fin m) (q : Fin n) :
    fourierG lam m d i
      = (if |2 * Real.pi * ((fftfreq m d i : ℚ) : ℝ)| ≤ Real.pi / (lam : ℝ) then 1 else 0)
    ∧ outer (fourierG lam m d) (fourierG lamZ n dZ) p q
      = fourierG lam m d p * fourierG lamZ n dZ q := by
  constructor
  · unfold fourierG
    by_cases h : |2 * Real.pi * ((fftfreq m d i : ℚ) : ℝ)| ≤ Real.pi / (lam : ℝ)
    · rw [if_pos h]
      unfold heaviside
      rw [if_neg (not_lt.mpr (sub_nonneg.mpr h))]
      split <;> rfl
    · rw [if_neg h]
      exact heaviside_neg (sub_neg.mpr (not_le.mp h))
  · rfl

/-- C6: the Gaussian 1D kernel value at angular wavenumber `κ = 2π·fftfreq`
equals `exp (-(κ·λ)²/24)`, and inside `gauss2dThZ` the azimuthal sample
spacing is `(th[1]-th[0])·rPos` while the 2D kernel is the outer product of
the two 1D Gaussian kernels. -/
theorem C6_gauss_kernel (nn : ℕ) (lam dd : ℚ) (i : Fin nn)
    (th z : List ℚ) (u : Fin th.length → Fin z.length → ℝ) (rPos lamTh lamZ : ℚ)
    (hth : 2 ≤ th.length) (hz : 2 ≤ z.length) :
    gaussG lam nn dd i
      = Real.exp (-((2 * Real.pi * ((fftfreq nn dd i : ℚ) : ℝ) * (lam : ℝ)) ^ (2 : ℕ)) / 24)
    ∧ gauss2dThZ th z u rPos lamTh lamZ
      = .ok (planeFilter
          (outer (gaussG lamTh th.length ((th.getD 1 0 - th.getD 0 0) * rPos))
                 (gaussG lamZ z.length (z.getD 1 0 - z.getD 0 0))) u) := by
  refine ⟨?_, gauss2dThZ_ok th z u rPos lamTh lamZ hth hz⟩
  unfold gaussG
  congr 1
  ring

theorem C6_witness :
    gaussG 1 2 1 (0 : Fin 2)
      = Real.exp (-((2 * Real.pi * ((fftfreq 2 1 (0 : Fin 2) : ℚ) : ℝ) * ((1 : ℚ) : ℝ)) ^ (2 : ℕ)) / 24) :=
  (C6_gauss_kernel 2 1 1 (0 : Fin 2) [0, 1] [0, 1] (fun _ _ => 0) 1 1 1
    (by norm_num) (by norm_num)).1

/-- C7: the box (top-hat) 1D kernel value equals the normalised sinc
`sin (πx)/(πx)` (with value `1` at `x = 0`) evaluated at
`x = cyclesPerLength · λ`, using the cycle wavenumber `fftfreq n d` and not
the angular one, and `box2dThZ` builds its 2D kernel as the outer product of
the two 1D sinc kernels. -/
theorem C7_box_kernel (nn : ℕ) (lam dd : ℚ) (i : Fin nn)
    (th z : List ℚ) (u : Fin th.length → Fin z.length → ℝ) (rPos lamTh lamZ : ℚ)
    (hth : 2 ≤ th.length) (hz : 2 ≤ z.length) :
    (((fftfreq nn dd i : ℚ) : ℝ) * (lam : ℝ) ≠ 0 →
      boxG lam nn dd i
        = Real.sin (Real.pi * (((fftfreq nn dd i : ℚ) : ℝ) * (lam : ℝ)))
            / (Real.pi * (((fftfreq nn dd i : ℚ) : ℝ) * (lam : ℝ))))
    ∧ (((fftfreq nn dd i : ℚ) : ℝ) * (lam : ℝ) = 0 → boxG lam nn dd i = 1)
    ∧ box2dThZ th z u rPos lamTh lamZ
      = .ok (planeFilter
          (outer (boxG lamTh th.length ((th.getD 1 0 - th.getD 0 0) * rPos))
                 (boxG lamZ z.length (z.getD 1 0 - z.getD 0 0))) u) := by
  refine ⟨?_, ?_, box2dThZ_ok th z u rPos lamTh lamZ hth hz⟩
  · intro hx
    unfold boxG sinc
    rw [if_neg hx]
  · intro hx
    unfold boxG sinc
    rw [if_pos hx]

theorem C7_witness : boxG 0 2 1 (0 : Fin 2) = 1 :=
  (C7_box_kernel 2 0 1 (0 : Fin 2) [0, 1] [0, 1] (fun _ _ => 0) 1 1 1
    (by norm_num) (by norm_num)).2.1 (by norm_num)

/-- C10: the output of each of the three volume filter entry points depends on
the radial grid vector only through its length: two calls differing only in
the values of equally long radial grid vectors give identical outputs, every
plane being filtered with the hard-coded reference radius `rRef = 0.986` and
never with `r[i]`. -/
theorem C10_r_only_through_length (r1 r2 th z : List ℚ)
    (u : ℕ → Fin th.length → Fin z.length → ℝ) (lamTh lamZ : ℚ) (rect : ℤ)
    (h : r1.length = r2.length) :
    fourier2d r1 th z u lamTh lamZ rect = fourier2d r2 th z u lamTh lamZ rect
    ∧ gauss2d r1 th z u lamTh lamZ = gauss2d r2 th z u lamTh lamZ
    ∧ box2d r1 th z u lamTh lamZ = box2d r2 th z u lamTh lamZ
    ∧ fourier2d r1 th z u lamTh lamZ rect
        = parallelMap (fun i => fourier2dThZ th z (u i) rRef lamTh lamZ rect)
            (List.range r1.length) := by
  unfold fourier2d gauss2d box2d
  rw [h]
  exact ⟨rfl, rfl, rfl, rfl⟩

theorem C10_witness :
    fourier2d [5] [0, 1] [0, 1] (fun _ _ _ => 0) 1 1 1
      = fourier2d [7] [0, 1] [0, 1] (fun _ _ _ => 0) 1 1 1 :=
  (C10_r_only_through_length [5] [7] [0, 1] [0, 1] (fun _ _ _ => 0) 1 1 1 rfl).1

/-- C3: requesting the circular/elliptical kernel (`rect ≠ 1`) never produces
a filtered plane; when the inputs pass the earlier failure points the error is
exactly the unsupported-configuration `sys.exit` message; and the volume entry
point with at least one radial plane likewise produces no output. -/
theorem C3_circular_rejected (th z : List ℚ) (u : Fin th.length → Fin z.length → ℝ)
    (r : List ℚ) (v : ℕ → Fin th.length → Fin z.length → ℝ)
    (rPos lamTh lamZ : ℚ) (rect : ℤ) (hrect : rect ≠ 1) :
    (fourier2dThZ th z u rPos lamTh lamZ rect).isOk = false
    ∧ (2 ≤ th.length → 2 ≤ z.length → lamTh ≠ 0 → lamZ ≠ 0 →
        fourier2dThZ th z u rPos lamTh lamZ rect = .error circularKernelMsg)
    ∧ (1 ≤ r.length → (fourier2d r th z v lamTh lamZ rect).isOk = false) := by
  have hnok : ∀ (w : Fin th.length → Fin z.length → ℝ) (rp : ℚ),
      (fourier2dThZ th z w rp lamTh lamZ rect).isOk = false := by
    intro w rp
    unfold fourier2dThZ
    by_cases h1 : 2 ≤ th.length
    · rw [if_pos h1]
      by_cases h2 : 2 ≤ z.length
      · rw [if_pos h2]
        by_cases h3 : lamTh = 0
        · rw [if_pos h3]; rfl
        · rw [if_neg h3]
          by_cases h4 : lamZ = 0
          · rw [if_pos h4]; rfl
          · rw [if_neg h4, if_neg hrect]; rfl
      · rw [if_neg h2]; rfl
    · rw [if_neg h1]; rfl
  refine ⟨hnok u rPos, ?_, ?_⟩
  · intro h1 h2 h3 h4
    unfold fourier2dThZ
    rw [if_pos h1, if_pos h2, if_neg h3, if_neg h4, if_neg hrect]
  · intro hr
    have hk : r.length = (r.length - 1) + 1 := by omega
    unfold fourier2d
    rw [hk, List.range_succ_eq_map]
    cases hc : fourier2dThZ th z (v 0) rRef lamTh lamZ rect with
    | ok p =>
      have hbad := hnok (v 0) rRef
      rw [hc] at hbad
      simp [Except.isOk, Except.toBool] at hbad
    | error e =>
      rw [parallelMap_cons_error _ e _ _ hc]
      rfl

theorem C3_witness :
    fourier2dThZ [0, 1] [0, 1] (fun _ _ => 0) 1 1 1 0 = .error circularKernelMsg
    ∧ (fourier2d [1] [0, 1] [0, 1] (fun _ _ _ => 0) 1 1 0).isOk = false :=
  ⟨(C3_circular_rejected [0, 1] [0, 1] (fun _ _ => 0) [1] (fun _ _ _ => 0) 1 1 1 0
      (by norm_num)).2.1 (by norm_num) (by norm_num) (by norm_num) (by norm_num),
   (C3_circular_rejected [0, 1] [0, 1] (fun _ _ => 0) [1] (fun _ _ _ => 0) 1 1 1 0
      (by norm_num)).2.2 (by norm_num)⟩

/-- C4: for every spatially constant input plane and valid positive widths,
each of the three per-plane filters returns the same constant plane, because
each kernel family's value at zero wavenumber is `1`.  The hypotheses on the
sample spacings keep the statement inside the region where the exact embedding
is faithful to floating point (`numpy` would produce NaNs for a zero spacing
instead of raising). -/
theorem C4_dc_preservation (th z : List ℚ) (rPos lamTh lamZ : ℚ) (c : ℝ)
    (hth : 2 ≤ th.length) (hz : 2 ≤ z.length) (hlt : 0 < lamTh) (hlz : 0 < lamZ)
    (_hdt : (th.getD 1 0 - th.getD 0 0) * rPos ≠ 0) (_hdz : z.getD 1 0 - z.getD 0 0 ≠ 0) :
    fourier2dThZ th z (fun _ _ => c) rPos lamTh lamZ 1 = .ok (fun _ _ => c)
    ∧ gauss2dThZ th z (fun _ _ => c) rPos lamTh lamZ = .ok (fun _ _ => c)
    ∧ box2dThZ th z (fun _ _ => c) rPos lamTh lamZ = .ok (fun _ _ => c) := by
  have hm : 0 < th.length := lt_of_lt_of_le (by norm_num) hth
  have hn : 0 < z.length := lt_of_lt_of_le (by norm_num) hz
  refine ⟨?_, ?_, ?_⟩
  · rw [fourier2dThZ_ok th z _ rPos lamTh lamZ hth hz hlt.ne' hlz.ne']
    congr 1
    refine planeFilter_const hm hn _ ?_ c
    unfold outer
    rw [fourierG_zero _ _ _ hm hlt, fourierG_zero _ _ _ hn hlz]
    norm_num
  · rw [gauss2dThZ_ok th z _ rPos lamTh lamZ hth hz]
    congr 1
    refine planeFilter_const hm hn _ ?_ c
    unfold outer
    rw [gaussG_zero _ _ _ hm, gaussG_zero _ _ _ hn]
    norm_num
  · rw [box2dThZ_ok th z _ rPos lamTh lamZ hth hz]
    congr 1
    refine planeFilter_const hm hn _ ?_ c
    unfold outer
    rw [boxG_zero _ _ _ hm, boxG_zero _ _ _ hn]
    norm_num

theorem C4_witness :
    fourier2dThZ [0, 1] [0, 1] (fun _ _ => (5 : ℝ)) 1 1 1 1 = .ok (fun _ _ => 5)
    ∧ gauss2dThZ [0, 1] [0, 1] (fun _ _ => (5 : ℝ)) 1 1 1 = .ok (fun _ _ => 5)
    ∧ box2dThZ [0, 1] [0, 1] (fun _ _ => (5 : ℝ)) 1 1 1 = .ok (fun _ _ => 5) :=
  C4_dc_preservation [0, 1] [0, 1] 1 1 1 5 (by norm_num) (by norm_num) (by norm_num)
    (by norm_num) (by norm_num) (by norm_num)

/-- C8: for every valid 3D input field and valid parameters, each of the three
volume filter entry points succeeds and returns a list of exactly `len r`
real-valued planes, each plane of the type `Fin th.length → Fin z.length → ℝ`
(so the output shape `(len r, len th, len z)` equals the input shape). -/
theorem C8_shape_preservation (r th z : List ℚ)
    (u : ℕ → Fin th.length → Fin z.length → ℝ) (lamTh lamZ : ℚ)
    (hth : 2 ≤ th.length) (hz : 2 ≤ z.length) (hlt : lamTh ≠ 0) (hlz : lamZ ≠ 0) :
    (fourier2d r th z u lamTh lamZ 1).map List.length = .ok r.length
    ∧ (gauss2d r th z u lamTh lamZ).map List.length = .ok r.length
    ∧ (box2d r th z u lamTh lamZ).map List.length = .ok r.length := by
  refine ⟨?_, ?_, ?_⟩
  · unfold fourier2d
    rw [parallelMap_ok _ (fun i => planeFilter
        (outer (fourierG lamTh th.length ((th.getD 1 0 - th.getD 0 0) * rRef))
               (fourierG lamZ z.length (z.getD 1 0 - z.getD 0 0))) (u i)) _
      (fun i _ => fourier2dThZ_ok th z (u i) rRef lamTh lamZ hth hz hlt hlz)]
    simp [Except.map]
  · unfold gauss2d
    rw [parallelMap_ok _ (fun i => planeFilter
        (outer (gaussG lamTh th.length ((th.getD 1 0 - th.getD 0 0) * rRef))
               (gaussG lamZ z.length (z.getD 1 0 - z.getD 0 0))) (u i)) _
      (fun i _ => gauss2dThZ_ok th z (u i) rRef lamTh lamZ hth hz)]
    simp [Except.map]
  · unfold box2d
    rw [parallelMap_ok _ (fun i => planeFilter
        (outer (boxG lamTh th.length ((th.getD 1 0 - th.getD 0 0) * rRef))
               (boxG lamZ z.length (z.getD 1 0 - z.getD 0 0))) (u i)) _
      (fun i _ => box2dThZ_ok th z (u i) rRef lamTh lamZ hth hz)]
    simp [Except.map]

/-- C9: under the active fixed-reference policy, the volume filter output is
the index-ordered list of per-plane results, so plane `i` of the output equals
the single-plane filter applied directly to `u i` with the policy's `rPos`
(`rRef`); and the serial execution of the same per-plane jobs coincides with
the order-preserving parallel dispatch. -/
theorem C9_per_plane_independence (r th z : List ℚ)
    (u : ℕ → Fin th.length → Fin z.length → ℝ) (lamTh lamZ : ℚ)
    (hth : 2 ≤ th.length) (hz : 2 ≤ z.length) (hlt : lamTh ≠ 0) (hlz : lamZ ≠ 0) :
    fourier2d r th z u lamTh lamZ 1
      = .ok ((List.range r.length).map (fun i => planeFilter
          (outer (fourierG lamTh th.length ((th.getD 1 0 - th.getD 0 0) * rRef))
                 (fourierG lamZ z.length (z.getD 1 0 - z.getD 0 0))) (u i)))
    ∧ (∀ i : ℕ, fourier2dThZ th z (u i) rRef lamTh lamZ 1
        = .ok (planeFilter
            (outer (fourierG lamTh th.length ((th.getD 1 0 - th.getD 0 0) * rRef))
                   (fourierG lamZ z.length (z.getD 1 0 - z.getD 0 0))) (u i)))
    ∧ serialRun (fun i => fourier2dThZ th z (u i) rRef lamTh lamZ 1) r.length
        = fourier2d r th z u lamTh lamZ 1 := by
  refine ⟨?_, fun i => fourier2dThZ_ok th z (u i) rRef lamTh lamZ hth hz hlt hlz, ?_⟩
  · unfold fourier2d
    exact parallelMap_ok _ _ _
      (fun i _ => fourier2dThZ_ok th z (u i) rRef lamTh lamZ hth hz hlt hlz)
  · unfold fourier2d
    exact serialRun_eq_parallelMap _ _

theorem C9_witness :
    fourier2dThZ [0, 1] [0, 1] (fun _ _ => 0) rRef 1 1 1
      = .ok (planeFilter
          (outer (fourierG 1 2 ((([0, 1] : List ℚ).getD 1 0 - ([0, 1] : List ℚ).getD 0 0) * rRef))
                 (fourierG 1 2 (([0, 1] : List ℚ).getD 1 0 - ([0, 1] : List ℚ).getD 0 0)))
          (fun _ _ => 0))
    ∧ serialRun (fun _ => fourier2dThZ [0, 1] [0, 1] (fun _ _ => 0) rRef 1 1 1) 1
        = fourier2d [3] [0, 1] [0, 1] (fun _ _ _ => 0) 1 1 1 :=
  ⟨(C9_per_plane_independence [3] [0, 1] [0, 1] (fun _ _ _ => 0) 1 1
      (by norm_num) (by norm_num) (by norm_num) (by norm_num)).2.1 0,
   (C9_per_plane_independence [3] [0, 1] [0, 1] (fun _ _ _ => 0) 1 1
      (by norm_num) (by norm_num) (by norm_num) (by norm_num)).2.2⟩

theorem C8_witness :
    (fourier2d [3, 4] [0, 1] [0, 1] (fun _ _ _ => 0) 1 1 1).map List.length = .ok 2
    ∧ (gauss2d [3, 4] [0, 1] [0, 1] (fun _ _ _ => 0) 1 1).map List.length = .ok 2
    ∧ (box2d [3, 4] [0, 1] [0, 1] (fun _ _ _ => 0) 1 1).map List.length = .ok 2 :=
  C8_shape_preservation [3, 4] [0, 1] [0, 1] (fun _ _ _ => 0) 1 1
    (by norm_num) (by norm_num) (by norm_num) (by norm_num)

theorem parallelMap_singleton {β : Type} (f : ℕ → Except String β) (x : β) (i : ℕ)
    (h : f i = .ok x) : parallelMap f [i] = .ok [x] := by
  simp only [parallelMap, h]
  rfl

/-- Test plane holding `1` at grid point `(0, 0)` and `0` elsewhere, used to
exhibit concrete filtered values on a 2×2 grid. -/
def uPoint : Fin 2 → Fin 2 → ℝ := fun a b => if a = 0 ∧ b = 0 then 1 else 0

theorem fft2_uPoint (p : Fin 2) (q : Fin 2) :
    fft2 (fun i j => ((uPoint i j : ℝ) : ℂ)) p q = 1 := by
  unfold fft2
  simp [Fin.sum_univ_two, show uPoint 0 0 = 1 from rfl, show uPoint 0 1 = 0 from rfl,
    show uPoint 1 0 = 0 from rfl, show uPoint 1 1 = 0 from rfl, Fin.val_zero,
    Complex.exp_zero]

theorem planeFilter_uPoint_zero (g : Fin 2 → Fin 2 → ℝ) :
    planeFilter g uPoint 0 0 = (g 0 0 + g 0 1 + g 1 0 + g 1 1) / 4 := by
  unfold planeFilter ifft2
  simp only [Fin.sum_univ_two, fft2_uPoint, one_mul, Fin.val_zero, Nat.cast_zero,
    mul_zero, zero_div, add_zero, zero_add, Complex.exp_zero, mul_one]
  have hval : 1 / (((2 : ℕ) : ℂ) * ((2 : ℕ) : ℂ))
      * (((g 0 0 : ℝ) : ℂ) + ((g 0 1 : ℝ) : ℂ) + (((g 1 0 : ℝ) : ℂ) + ((g 1 1 : ℝ) : ℂ)))
      = (((g 0 0 + g 0 1 + g 1 0 + g 1 1) / 4 : ℝ) : ℂ) := by
    push_cast
    ring
  rw [hval, Complex.ofReal_re]

theorem fftfreq_two_zero (d : ℚ) : fftfreq 2 d (0 : Fin 2) = 0 := by
  unfold fftfreq
  norm_num

theorem fftfreq_two_one (d : ℚ) : fftfreq 2 d (1 : Fin 2) = -1 / (2 * d) := by
  unfold fftfreq
  norm_num

theorem fourierG_half_zero (d : ℚ) : fourierG (1/2) 2 d (0 : Fin 2) = 1 := by
  unfold fourierG
  rw [fftfreq_two_zero]
  push_cast
  rw [mul_zero, abs_zero, sub_zero]
  exact heaviside_pos (by positivity)

theorem fourierG_half_one_ref : fourierG (1/2) 2 (493/500) (1 : Fin 2) = 1 := by
  unfold fourierG
  rw [fftfreq_two_one]
  have hc : (((-1 : ℚ) / (2 * (493/500)) : ℚ) : ℝ) = -(250/493) := by
    push_cast
    norm_num
  rw [hc]
  have harg : Real.pi / ((1/2 : ℚ) : ℝ) - |2 * Real.pi * -(250/493)| = 486/493 * Real.pi := by
    rw [abs_of_nonpos (by nlinarith [Real.pi_pos])]
    push_cast
    ring
  rw [harg]
  exact heaviside_pos (by positivity)

theorem fourierG_half_one_z : fourierG (1/2) 2 1 (1 : Fin 2) = 1 := by
  unfold fourierG
  rw [fftfreq_two_one]
  have hc : (((-1 : ℚ) / (2 * 1) : ℚ) : ℝ) = -(1/2) := by
    push_cast
    norm_num
  rw [hc]
  have harg : Real.pi / ((1/2 : ℚ) : ℝ) - |2 * Real.pi * -(1/2)| = Real.pi := by
    rw [abs_of_nonpos (by nlinarith [Real.pi_pos])]
    push_cast
    ring
  rw [harg]
  exact heaviside_pos Real.pi_pos

theorem fourierG_half_one_perR : fourierG (1/2) 2 (1/100) (1 : Fin 2) = 0 := by
  unfold fourierG
  rw [fftfreq_two_one]
  have hc : (((-1 : ℚ) / (2 * (1/100)) : ℚ) : ℝ) = -50 := by
    push_cast
    norm_num
  rw [hc]
  have harg : Real.pi / ((1/2 : ℚ) : ℝ) - |2 * Real.pi * -50| = -(98 * Real.pi) := by
    rw [abs_of_nonpos (by nlinarith [Real.pi_pos])]
    push_cast
    ring
  rw [harg]
  exact heaviside_neg (by nlinarith [Real.pi_pos])

/-- C1 counterexample: the entry points accept no plane-filtering policy, and
the behaviour is not the true per-radius one.  On the radial grid `r = [1/100]`
with `th = z = [0, 1]`, widths `1/2`, and the point-mass input plane, the code
(which always uses the fixed reference radius `rRef = 0.986`) returns a
different volume than the spec's per-radius policy (`rPos = r[0] = 1/100`)
would: at the 2×2 grid point `(0, 0)` the code's plane holds `1` while the
per-radius plane holds `1/2`. -/
theorem C1_counterexample :
    fourier2d [1/100] [0, 1] [0, 1] (fun _ => uPoint) (1/2) (1/2) 1
      ≠ fourier2dPerRadius [1/100] [0, 1] [0, 1] (fun _ => uPoint) (1/2) (1/2) 1 := by
  have hgetd : (([0, 1] : List ℚ).getD 1 0 - ([0, 1] : List ℚ).getD 0 0) = 1 := by norm_num
  have hdA : (([0, 1] : List ℚ).getD 1 0 - ([0, 1] : List ℚ).getD 0 0) * rRef = 493/500 := by
    norm_num [rRef]
  have hdB : (([0, 1] : List ℚ).getD 1 0 - ([0, 1] : List ℚ).getD 0 0)
      * (([1/100] : List ℚ).getD 0 0) = 1/100 := by norm_num
  have hf0L : fourier2dThZ [0, 1] [0, 1] uPoint rRef (1/2) (1/2) 1
      = .ok (planeFilter (outer (fourierG (1/2) 2 (493/500)) (fourierG (1/2) 2 1)) uPoint) := by
    rw [fourier2dThZ_ok [0, 1] [0, 1] uPoint rRef (1/2) (1/2)
      (by norm_num) (by norm_num) (by norm_num) (by norm_num), hdA, hgetd]
    rfl
  have hf0R : fourier2dThZ [0, 1] [0, 1] uPoint (([1/100] : List ℚ).getD 0 0) (1/2) (1/2) 1
      = .ok (planeFilter (outer (fourierG (1/2) 2 (1/100)) (fourierG (1/2) 2 1)) uPoint) := by
    rw [fourier2dThZ_ok [0, 1] [0, 1] uPoint (([1/100] : List ℚ).getD 0 0) (1/2) (1/2)
      (by norm_num) (by norm_num) (by norm_num) (by norm_num), hdB, hgetd]
    rfl
  have hL : fourier2d [1/100] [0, 1] [0, 1] (fun _ => uPoint) (1/2) (1/2) 1
      = .ok [planeFilter (outer (fourierG (1/2) 2 (493/500)) (fourierG (1/2) 2 1)) uPoint] := by
    unfold fourier2d
    rw [show List.range (List.length [(1/100 : ℚ)]) = [0] from rfl,
      parallelMap_singleton _ _ 0 hf0L]
  have hR : fourier2dPerRadius [1/100] [0, 1] [0, 1] (fun _ => uPoint) (1/2) (1/2) 1
      = .ok [planeFilter (outer (fourierG (1/2) 2 (1/100)) (fourierG (1/2) 2 1)) uPoint] := by
    unfold fourier2dPerRadius
    rw [show List.range (List.length [(1/100 : ℚ)]) = [0] from rfl,
      parallelMap_singleton _ _ 0 hf0R]
  intro h
  rw [hL, hR] at h
  have hp := (List.cons.inj (Except.ok.inj h)).1
  have h00 := congrFun (congrFun hp (0 : Fin 2)) (0 : Fin 2)
  rw [planeFilter_uPoint_zero, planeFilter_uPoint_zero] at h00
  simp only [outer, fourierG_half_zero, fourierG_half_one_ref, fourierG_half_one_z,
    fourierG_half_one_perR] at h00
  norm_num at h00

/-- C1 (amended): none of the three volume filter entry points accepts a
plane-filtering policy.  Each always invokes the per-plane filter with the
hard-coded fixed reference radius `rRef = 0.986` for every radial index; the
true per-radius variant exists only as commented-out code. -/
theorem C1_no_policy_always_rRef (r th z : List ℚ)
    (u : ℕ → Fin th.length → Fin z.length → ℝ) (lamTh lamZ : ℚ) (rect : ℤ) :
    fourier2d r th z u lamTh lamZ rect
      = parallelMap (fun i => fourier2dThZ th z (u i) rRef lamTh lamZ rect)
          (List.range r.length)
    ∧ gauss2d r th z u lamTh lamZ
      = parallelMap (fun i => gauss2dThZ th z (u i) rRef lamTh lamZ)
          (List.range r.length)
    ∧ box2d r th z u lamTh lamZ
      = parallelMap (fun i => box2dThZ th z (u i) rRef lamTh lamZ)
          (List.range r.length)
    ∧ rRef = 493 / 500 :=
  ⟨rfl, rfl, rfl, by norm_num [rRef]⟩

/-- C2 counterexample: a call with the non-positive filter width `-1` does not
fail — the Gaussian volume entry point happily returns a filtered output,
because no width validation exists anywhere in the code. -/
theorem C2_counterexample :
    ((-1 : ℚ) < 0)
    ∧ (gauss2d [5] [0, 1] [0, 1] (fun _ _ _ => 0) (-1) 1).isOk = true := by
  refine ⟨by norm_num, ?_⟩
  have h0 := gauss2dThZ_ok [0, 1] [0, 1] (fun _ _ => (0 : ℝ)) rRef (-1) 1
    (by norm_num) (by norm_num)
  unfold gauss2d
  rw [show List.range (List.length [(5 : ℚ)]) = [0] from rfl,
    parallelMap_singleton _ _ 0 h0]
  rfl

/-- C2 (amended): a grid vector of length < 2 makes every per-plane filter
fail with an index error before any transform work (the failure comes from the
grid indexing `th[1]`, not from validation); the filter widths themselves are
never validated: `lambda = 0` makes only the sharp-cutoff filter fail, via the
incidental Python float zero division in `np.pi/lambda`, while the Gaussian
and box filters succeed for every width, including non-positive ones. -/
theorem C2_no_width_validation (th z : List ℚ) (u : Fin th.length → Fin z.length → ℝ)
    (rPos lamTh lamZ : ℚ) (rect : ℤ) :
    (th.length < 2 ∨ z.length < 2 →
      fourier2dThZ th z u rPos lamTh lamZ rect = .error indexErrorMsg
      ∧ gauss2dThZ th z u rPos lamTh lamZ = .error indexErrorMsg
      ∧ box2dThZ th z u rPos lamTh lamZ = .error indexErrorMsg)
    ∧ (2 ≤ th.length → 2 ≤ z.length → lamTh = 0 →
      fourier2dThZ th z u rPos lamTh lamZ rect = .error zeroDivisionMsg)
    ∧ (2 ≤ th.length → 2 ≤ z.length →
      (gauss2dThZ th z u rPos lamTh lamZ).isOk = true
      ∧ (box2dThZ th z u rPos lamTh lamZ).isOk = true) := by
  refine ⟨?_, ?_, ?_⟩
  · intro hshort
    rcases hshort with hth | hz
    · have hth2 : ¬ 2 ≤ th.length := not_le.mpr hth
      unfold fourier2dThZ gauss2dThZ box2dThZ
      rw [if_neg hth2, if_neg hth2, if_neg hth2]
      exact ⟨rfl, rfl, rfl⟩
    · have hz2 : ¬ 2 ≤ z.length := not_le.mpr hz
      unfold fourier2dThZ gauss2dThZ box2dThZ
      by_cases hth2 : 2 ≤ th.length
      · rw [if_pos hth2, if_pos hth2, if_pos hth2, if_neg hz2, if_neg hz2, if_neg hz2]
        exact ⟨rfl, rfl, rfl⟩
      · rw [if_neg hth2, if_neg hth2, if_neg hth2]
        exact ⟨rfl, rfl, rfl⟩
  · intro hth hz hl0
    unfold fourier2dThZ
    rw [if_pos hth, if_pos hz, if_pos hl0]
  · intro hth hz
    rw [gauss2dThZ_ok th z u rPos lamTh lamZ hth hz,
      box2dThZ_ok th z u rPos lamTh lamZ hth hz]
    exact ⟨rfl, rfl⟩

theorem C2_witness :
    gauss2dThZ [0] [0, 1] (fun _ _ => 0) 1 (-1) 1 = .error indexErrorMsg
    ∧ fourier2dThZ [0, 1] [0, 1] (fun _ _ => 0) 1 0 1 1 = .error zeroDivisionMsg
    ∧ (box2dThZ [0, 1] [0, 1] (fun _ _ => 0) 1 (-1) 1).isOk = true :=
  ⟨((C2_no_width_validation [0] [0, 1] (fun _ _ => 0) 1 (-1) 1 1).1
      (Or.inl (by norm_num))).2.1,
   (C2_no_width_validation [0, 1] [0, 1] (fun _ _ => 0) 1 0 1 1).2.1
      (by norm_num) (by norm_num) rfl,
   ((C2_no_width_validation [0, 1] [0, 1] (fun _ _ => 0) 1 (-1) 1 1).2.2
      (by norm_num) (by norm_num)).2⟩

end
